import Mathlib

/-!
# tii-workshop: the C calling surface of the hash library and its example program

The repository's C side consists of the header `crypto_api.h` (constants, the
result enumeration, the opaque context and digest types, and the prototypes of
`crypto_init`, `crypto_update`, `crypto_finalize`) and of `example.c`, whose
`main` hashes the five bytes of "hello" with SHA3-256 and compares the result
with a fixed 32-byte array.

The bodies of the three API functions are not part of the C sources; they are
modelled here from the written specification (sections 3, 4.1 to 4.4), and the
definitions that stand for them say so in their doc comments.

Machine integers are natural numbers, reduced explicitly modulo `2 ^ 32` or
`2 ^ 64` where the width matters. A null pointer is `none`.
-/

namespace CryptoApi

/-! ## `crypto_api.h` -/

/-- `#define SHA256_ALG_ID 0` -/
def SHA256_ALG_ID : Nat := 0

/-- `#define SHA3_256_ALG_ID 1` -/
def SHA3_256_ALG_ID : Nat := 1

/-- The `..._ALG_ID` constants the header defines, in the order of their definition. -/
def algorithmIds : List Nat := [SHA256_ALG_ID, SHA3_256_ALG_ID]

/-- `#define CRYPTO_CONTEXT_STATE_SIZE 45` -/
def CRYPTO_CONTEXT_STATE_SIZE : Nat := 45

/-- `#define CRYPTO_DIGEST_SIZE 32` -/
def CRYPTO_DIGEST_SIZE : Nat := 32

/-- The enumeration `CryptoResult` of the header. -/
inductive CryptoResult where
  | Success
  | Failure
  | PointerCannotBeNull
  | BadOrUnsupportedAlgorithm
  | UninitializedOrCorruptedContext
  deriving DecidableEq, Repr

/-- The enumerators of `CryptoResult` in the order in which the header declares them. -/
def CryptoResult.enumerators : List CryptoResult :=
  [.Success, .Failure, .PointerCannotBeNull, .BadOrUnsupportedAlgorithm,
   .UninitializedOrCorruptedContext]

/-- The integer value of an enumerator. No enumerator of the header carries an explicit
value, so C gives the first one the value 0 and each later one the value of its
predecessor plus one: the value is the position in the declaration. -/
def CryptoResult.value (r : CryptoResult) : Nat := CryptoResult.enumerators.indexOf r

/-- Bytes of one `uint64_t`. -/
def UINT64_BYTES : Nat := 8

/-- Bits of one `uint8_t`. -/
def UINT8_BITS : Nat := 8

/-- Little-endian bytes of a word: `n` bytes, least significant first. -/
def leBytes : Nat → Nat → List Nat
  | 0, _ => []
  | n + 1, w => w % 256 :: leBytes n (w / 256)

/-- `typedef struct { uint64_t state[CRYPTO_CONTEXT_STATE_SIZE]; } CryptoContext;` -/
structure CryptoContext where
  state : List Nat
  size_eq : state.length = CRYPTO_CONTEXT_STATE_SIZE

/-- The object representation of a context: the bytes of its words, in order. -/
def CryptoContext.bytes (c : CryptoContext) : List Nat :=
  c.state.flatMap fun w => leBytes UINT64_BYTES (w % 2 ^ 64)

/-- `sizeof(CryptoContext)`: an array of `CRYPTO_CONTEXT_STATE_SIZE` 64-bit words. -/
def CryptoContext.sizeInBytes : Nat := CRYPTO_CONTEXT_STATE_SIZE * UINT64_BYTES

/-- `typedef uint8_t CryptoDigest[CRYPTO_DIGEST_SIZE];` -/
structure CryptoDigest where
  bytes : List Nat
  size_eq : bytes.length = CRYPTO_DIGEST_SIZE

/-- `sizeof(CryptoDigest)` in bits. -/
def CryptoDigest.sizeInBits : Nat := CRYPTO_DIGEST_SIZE * UINT8_BITS

/-- The initializer `{0}` of a `CryptoContext`. -/
def CryptoContext.zero : CryptoContext :=
  ⟨List.replicate CRYPTO_CONTEXT_STATE_SIZE 0, List.length_replicate _ _⟩

/-- The initializer `{0}` of a `CryptoDigest`. -/
def CryptoDigest.zero : CryptoDigest :=
  ⟨List.replicate CRYPTO_DIGEST_SIZE 0, List.length_replicate _ _⟩

/-! ## `example.c` -/

/-- `uint8_t input[5]` of `main`. -/
def input : List Nat := [0x68, 0x65, 0x6c, 0x6c, 0x6f]

/-- `uint8_t output[32]` of `main`, the expected digest. -/
def output : List Nat :=
  [0x33, 0x38, 0xbe, 0x69, 0x4f, 0x50, 0xc5, 0xf3, 0x38, 0x81, 0x49, 0x86, 0xcd, 0xf0,
   0x68, 0x64, 0x53, 0xa8, 0x88, 0xb8, 0x4f, 0x42, 0x4d, 0x79, 0x2a, 0xf4, 0xb9, 0x20,
   0x23, 0x98, 0xf3, 0x92]

/-- The three functions of the header as `main` sees them: each call may read and write
the memory behind the pointers it is given, and whatever else the library keeps (`W`).
Nothing is assumed about what they do. A C enumeration is an integer type, and a
function declared to return `CryptoResult` can hand back any integer, so the result
of a call is an integer, which `main` compares with the value of `Success`. -/
structure Api (W : Type) where
  crypto_init : W → CryptoContext → Nat → Int × W × CryptoContext
  crypto_update : W → CryptoContext → List Nat → Nat → Int × W × CryptoContext
  crypto_finalize : W → CryptoContext → CryptoDigest → Int × W × CryptoContext × CryptoDigest

/-- Which API function a call went to. -/
inductive Call where
  | init
  | update
  | finalize
  deriving DecidableEq, Repr

/-- What a run of `main` leaves behind: the value it returns, the API calls it made in
order, and what it printed. -/
structure Outcome where
  exit : Int
  calls : List Call
  stdout : List String
  deriving DecidableEq, Repr

/-- The comparison loop of `main`, entered at index `i` with `n` iterations left:
`for (; i < 32; i++) if (output[i] != digest[i]) { printf(...); return 1; }`.
The result is the first index at which the two arrays differ, if there is one. -/
def compareFrom (digest : List Nat) : Nat → Nat → Option Nat
  | 0, _ => none
  | n + 1, i =>
    if output.getD i 0 ≠ digest.getD i 0 then some i else compareFrom digest n (i + 1)

/-- The function `main` of `example.c`. -/
def main {W : Type} (api : Api W) (w : W) : Outcome :=
  let ctx := CryptoContext.zero
  let digest := CryptoDigest.zero
  let r1 := api.crypto_init w ctx SHA3_256_ALG_ID
  if r1.1 ≠ CryptoResult.Success.value then
    ⟨1, [.init], ["Error while initializing\n"]⟩
  else
    let r2 := api.crypto_update r1.2.1 r1.2.2 input 5
    if r2.1 ≠ CryptoResult.Success.value then
      ⟨1, [.init, .update], ["Error while updating\n"]⟩
    else
      let r3 := api.crypto_finalize r2.2.1 r2.2.2 digest
      if r3.1 ≠ CryptoResult.Success.value then
        ⟨1, [.init, .update, .finalize], ["Error while finalizing\n"]⟩
      else
        match compareFrom r3.2.2.2.bytes 32 0 with
        | some i =>
          ⟨1, [.init, .update, .finalize],
            ["Wrong output at position " ++ toString i ++ ", expected "
              ++ toString (output.getD i 0) ++ " but found "
              ++ toString (r3.2.2.2.bytes.getD i 0) ++ "! :(\n"]⟩
        | none => ⟨0, [.init, .update, .finalize], ["Correct output! :)\nBye!\n"]⟩

/-- The call `crypto_init(&ctx, SHA3_256_ALG_ID)` of `main`: its result and the memory
it leaves. -/
def initCall {W : Type} (api : Api W) (w : W) : Int × W × CryptoContext :=
  api.crypto_init w CryptoContext.zero SHA3_256_ALG_ID

/-- The call `crypto_update(&ctx, input, 5)` of `main`, on the memory `crypto_init` left. -/
def updateCall {W : Type} (api : Api W) (w : W) : Int × W × CryptoContext :=
  api.crypto_update (initCall api w).2.1 (initCall api w).2.2 input 5

/-- The call `crypto_finalize(&ctx, &digest)` of `main`, on the memory `crypto_update`
left and the zeroed digest. -/
def finalizeCall {W : Type} (api : Api W) (w : W) : Int × W × CryptoContext × CryptoDigest :=
  api.crypto_finalize (updateCall api w).2.1 (updateCall api w).2.2 CryptoDigest.zero

/-- Lowercase hexadecimal digit of a value below 16. -/
def hexDigit (n : Nat) : Char := "0123456789abcdef".toList.getD n '0'

/-- Lowercase hexadecimal encoding of a byte string, two digits per byte. -/
def hexEncode (bs : List Nat) : List Char :=
  bs.flatMap fun b => [hexDigit (b / 16 % 16), hexDigit (b % 16)]

/-! ## The engine behind the API (specification sections 3 and 4)

The C sources declare `crypto_init`, `crypto_update` and `crypto_finalize` but do not
contain their bodies. What follows is the model of them that the specification
describes: the dispatcher (4.1), the context and its lifecycle (3, 4.2), and the two
engines (4.3, 4.4). -/

/-- Modelled from the spec: the closed set of algorithm descriptors of the dispatcher
(section 3, AlgorithmDescriptor), whose implementation is not in the C sources. -/
inductive Algorithm where
  | sha256
  | sha3_256
  deriving DecidableEq, Repr

/-- Modelled from the spec: the dispatcher `resolve` of section 4.1, absent from the C
sources: an equality-based lookup of the identifier among the known ones; any other
value is the error `BadOrUnsupportedAlgorithm`. -/
def resolve (id : Nat) : Except CryptoResult Algorithm :=
  if id = SHA256_ALG_ID then .ok .sha256
  else if id = SHA3_256_ALG_ID then .ok .sha3_256
  else .error .BadOrUnsupportedAlgorithm

/-- Modelled from the spec: the identifier of a descriptor (section 4.1). -/
def Algorithm.identifier : Algorithm → Nat
  | .sha256 => SHA256_ALG_ID
  | .sha3_256 => SHA3_256_ALG_ID

/-- Modelled from the spec: the block size of each engine, 64 bytes for SHA-256
(section 4.3) and the rate of 136 bytes for SHA3-256 (section 4.4). -/
def Algorithm.blockSize : Algorithm → Nat
  | .sha256 => 64
  | .sha3_256 => 136

/-! ### Sha3_256Engine (section 4.4) -/

/-- Modelled from the spec: rotation of a 64-bit lane to the left, part of the Keccak
permutation of section 4.4, absent from the C sources. -/
def rotl64 (x n : Nat) : Nat := ((x <<< n) ||| (x >>> (64 - n))) % 2 ^ 64

/-- Modelled from the spec: the 24 round constants of the iota step (section 4.4,
"round-specific constants"), the ones of Keccak-f[1600]. -/
def keccakRoundConstants : List Nat :=
  [0x0000000000000001, 0x0000000000008082, 0x800000000000808a, 0x8000000080008000,
   0x000000000000808b, 0x0000000080000001, 0x8000000080008081, 0x8000000000008009,
   0x000000000000008a, 0x0000000000000088, 0x0000000080008009, 0x000000008000000a,
   0x000000008000808b, 0x800000000000008b, 0x8000000000008089, 0x8000000000008003,
   0x8000000000008002, 0x8000000000000080, 0x000000000000800a, 0x800000008000000a,
   0x8000000080008081, 0x8000000000008080, 0x0000000080000001, 0x8000000080008008]

/-- Modelled from the spec: the rotation offsets of the rho step of Keccak-f[1600]
(section 4.4), for the lane at column `x` and row `y` at position `x + 5 * y`. They
are generated as the permutation is defined: lane (0, 0) is not rotated; starting at
`(x, y) = (1, 0)`, step `t` of 24 gives the lane at `(x, y)` the offset
`(t + 1)(t + 2) / 2` modulo 64 and moves on to `(y, 2x + 3y)`. -/
def keccakRotations : List Nat :=
  ((List.range 24).foldl
    (fun (acc : (Nat × Nat) × List Nat) t =>
      ((acc.1.2, (2 * acc.1.1 + 3 * acc.1.2) % 5),
        acc.2.set (acc.1.1 + 5 * acc.1.2) ((t + 1) * (t + 2) / 2 % 64)))
    ((1, 0), List.replicate 25 0)).2

/-- Lane (or word) `i` of a state, zero when the state is too short. -/
def lane (a : List Nat) (i : Nat) : Nat := a.getD i 0

/-- Modelled from the spec: the theta step of section 4.4: every lane is combined with
the parities of two neighbouring columns. -/
def theta (a : List Nat) : List Nat :=
  let c := (List.range 5).map fun x =>
    lane a x ^^^ lane a (x + 5) ^^^ lane a (x + 10) ^^^ lane a (x + 15) ^^^ lane a (x + 20)
  let d := (List.range 5).map fun x =>
    lane c ((x + 4) % 5) ^^^ rotl64 (lane c ((x + 1) % 5)) 1
  (List.range 25).map fun i => lane a i ^^^ lane d (i % 5)

/-- Modelled from the spec: the rho and pi steps of section 4.4 together: the lane at
`(x, y)` is rotated by its offset and moved to `(y, 2x + 3y)`. Written as a gather: the
lane that arrives at `(u, v)` comes from column `x = (u + 3v) mod 5` of row `y = u`. -/
def rhoPi (a : List Nat) : List Nat :=
  (List.range 25).map fun j =>
    let src := (j % 5 + 3 * (j / 5)) % 5 + 5 * (j % 5)
    rotl64 (lane a src) (lane keccakRotations src)

/-- Modelled from the spec: the chi step of section 4.4, the only non-linear one:
`a[x] ^= ~a[x+1] & a[x+2]` within each row. -/
def chi (b : List Nat) : List Nat :=
  (List.range 25).map fun i =>
    let x := i % 5
    let y := i / 5
    lane b i ^^^
      ((lane b ((x + 1) % 5 + 5 * y) ^^^ (2 ^ 64 - 1)) &&& lane b ((x + 2) % 5 + 5 * y))

/-- Modelled from the spec: the iota step of section 4.4: the round constant is added
to lane 0. -/
def iota (r : Nat) : List Nat → List Nat
  | [] => []
  | h :: t => (h ^^^ lane keccakRoundConstants r) :: t

/-- Modelled from the spec: one round of the permutation, the five step mappings of
section 4.4 in their order theta, rho, pi, chi, iota. -/
def keccakRound (a : List Nat) (r : Nat) : List Nat := iota r (chi (rhoPi (theta a)))

/-- Modelled from the spec: the 24-round Keccak-f permutation of section 4.4. -/
def keccakF (a : List Nat) : List Nat := (List.range 24).foldl keccakRound a

/-- Modelled from the spec: the value of a lane read from the bytes of a chunk, least
significant byte first, the byte order of the Keccak sponge of section 4.4. -/
def leWord (bs : List Nat) : Nat := bs.foldr (fun b acc => b + 256 * acc) 0

/-- Modelled from the spec: the first `n` 64-bit lanes of a chunk (section 4.4), eight
bytes each, read in order. -/
def leLanes : Nat → List Nat → List Nat
  | 0, _ => []
  | n + 1, bs => leWord (bs.take 8) :: leLanes n (bs.drop 8)

/-- Modelled from the spec: "XOR the chunk into the rate portion of the state" (section
4.4): the lanes of the second list are combined into the front of the first. -/
def xorInto : List Nat → List Nat → List Nat
  | [], _ => []
  | a :: as, [] => a :: as
  | a :: as, b :: bs => (a ^^^ b) :: xorInto as bs

/-- Modelled from the spec: absorption of one rate-sized chunk (section 4.4): "XOR the
chunk into the rate portion of the state and run the 24-round Keccak-f permutation".
The rate portion is the first 17 lanes (136 bytes). -/
def sha3Absorb (s blk : List Nat) : List Nat := keccakF (xorInto s (leLanes 17 blk))

/-- Modelled from the spec: the padded last block of section 4.4: "append
domain-separation/padding byte 0x06 immediately after the message, then pad with zero
bytes up to one byte before the rate boundary, then set the final byte's top bit". -/
def sha3Pad (buf : List Nat) : List Nat :=
  let blk := buf ++ 0x06 :: List.replicate (135 - buf.length) 0
  blk.set 135 (blk.getD 135 0 ||| 0x80)

/-- Modelled from the spec: the output of section 4.4: "squeeze the first 32 bytes of
the rate portion of the state as the digest". -/
def sha3Squeeze (s : List Nat) : List Nat :=
  (List.range 4).flatMap fun i => leBytes 8 (lane s i)

/-! ### Sha256Engine (section 4.3) -/

/-- Search bit by bit from bit `k - 1` down: starting from `r`, a bit is set when the
`e`-th power of the result stays at most `n`. From `r = 0` this is the integer `e`-th
root of `n`, when that root is below `2 ^ k`. -/
def iroot (e : Nat) : Nat → Nat → Nat → Nat
  | 0, _, r => r
  | k + 1, n, r => if (r + 2 ^ k) ^ e ≤ n then iroot e k n (r + 2 ^ k) else iroot e k n r

/-- Primality by trial division. -/
def isPrime (n : Nat) : Bool := 2 ≤ n && (List.range n).all fun d => d < 2 || n % d != 0

/-- The first 64 prime numbers, 2 to 311. -/
def firstPrimes : List Nat := (List.range 312).filter isPrime

/-- Modelled from the spec: "the standard SHA-256 initial hash values" of section 4.3:
the first 32 bits of the fractional parts of the square roots of the first 8 primes. -/
def sha256Init : List Nat :=
  (firstPrimes.take 8).map fun p => iroot 2 40 (p * 2 ^ 64) 0 % 2 ^ 32

/-- Modelled from the spec: "the defined round constants" of section 4.3: the first 32
bits of the fractional parts of the cube roots of the first 64 primes. -/
def sha256K : List Nat :=
  firstPrimes.map fun p => iroot 3 40 (p * 2 ^ 96) 0 % 2 ^ 32

/-- Modelled from the spec: rotation of a 32-bit word to the right, part of the SHA-256
compression function of section 4.3, absent from the C sources. -/
def rotr32 (x n : Nat) : Nat := ((x >>> n) ||| (x <<< (32 - n))) % 2 ^ 32

/-- Modelled from the spec: the value of a word read from the bytes of a block, most
significant byte first, the byte order of SHA-256 (section 4.3). -/
def beWord (bs : List Nat) : Nat := bs.foldl (fun acc b => 256 * acc + b) 0

/-- Modelled from the spec: the first `n` 32-bit words of a block (section 4.3), four
bytes each, read in order. -/
def beWords : Nat → List Nat → List Nat
  | 0, _ => []
  | n + 1, bs => beWord (bs.take 4) :: beWords n (bs.drop 4)

/-- Modelled from the spec: a word "serialized big-endian" (section 4.3): `n` bytes,
most significant first. -/
def beBytes (n w : Nat) : List Nat := (leBytes n w).reverse

/-- Modelled from the spec: the "message schedule expansion" of section 4.3: `n` more
words are appended, each computed from four earlier ones. -/
def sha256Expand : Nat → List Nat → List Nat
  | 0, w => w
  | n + 1, w =>
    let t := w.length
    let x := lane w (t - 15)
    let y := lane w (t - 2)
    let s0 := rotr32 x 7 ^^^ rotr32 x 18 ^^^ (x >>> 3)
    let s1 := rotr32 y 17 ^^^ rotr32 y 19 ^^^ (y >>> 10)
    sha256Expand n (w ++ [(lane w (t - 16) + s0 + lane w (t - 7) + s1) % 2 ^ 32])

/-- Modelled from the spec: one of the 64 rounds of the compression function of section
4.3, on the working variables `a` to `h` and the scheduled words `w`. -/
def sha256Round (w : List Nat) (v : List Nat) (t : Nat) : List Nat :=
  let a := lane v 0
  let b := lane v 1
  let c := lane v 2
  let d := lane v 3
  let e := lane v 4
  let f := lane v 5
  let g := lane v 6
  let h := lane v 7
  let s1 := rotr32 e 6 ^^^ rotr32 e 11 ^^^ rotr32 e 25
  let ch := (e &&& f) ^^^ ((e ^^^ (2 ^ 32 - 1)) &&& g)
  let t1 := (h + s1 + ch + lane sha256K t + lane w t) % 2 ^ 32
  let s0 := rotr32 a 2 ^^^ rotr32 a 13 ^^^ rotr32 a 22
  let mj := (a &&& b) ^^^ (a &&& c) ^^^ (b &&& c)
  let t2 := (s0 + mj) % 2 ^ 32
  [(t1 + t2) % 2 ^ 32, a, b, c, (d + t1) % 2 ^ 32, e, f, g]

/-- Modelled from the spec: the compression of one 64-byte block (section 4.3): "the
64-round SHA-256 compression function using the defined round constants and message
schedule expansion". -/
def sha256Compress (s blk : List Nat) : List Nat :=
  let w := sha256Expand 48 (beWords 16 blk)
  let v := (List.range 64).foldl (sha256Round w) s
  (List.range 8).map fun i => (lane s i + lane v i) % 2 ^ 32

/-- Modelled from the spec: the padding of section 4.3: "append a single 0x80 byte, then
zero bytes, until the buffered length is 56 (mod 64), then append the total bit-length
of all input ever absorbed as a 64-bit big-endian integer". `total` is the byte count
of the length counter. -/
def sha256Pad (buf : List Nat) (total : Nat) : List Nat :=
  buf ++ 0x80 :: List.replicate ((119 - buf.length % 64) % 64) 0
    ++ beBytes 8 (total * 8 % 2 ^ 64)

/-- Modelled from the spec: the digest of section 4.3: "the eight state words serialized
big-endian". -/
def sha256Output (s : List Nat) : List Nat :=
  (List.range 8).flatMap fun i => beBytes 4 (lane s i)

/-! ### Dispatch to the selected engine -/

/-- Modelled from the spec: the running state each engine starts from: the initial hash
values for SHA-256 (section 4.3), the all-zero 25 lanes for the sponge (section 4.4). -/
def Algorithm.initialState : Algorithm → List Nat
  | .sha256 => sha256Init
  | .sha3_256 => List.replicate 25 0

/-- Modelled from the spec: the compression or permutation operation of the descriptor
(section 3), applied to one full block. -/
def Algorithm.compress : Algorithm → List Nat → List Nat → List Nat
  | .sha256 => sha256Compress
  | .sha3_256 => sha3Absorb

/-- Modelled from the spec: the padding rule of the descriptor (section 3): the buffered
remainder with the padding of the algorithm appended, a whole number of blocks. -/
def Algorithm.pad : Algorithm → List Nat → Nat → List Nat
  | .sha256, buf, total => sha256Pad buf total
  | .sha3_256, buf, _ => sha3Pad buf

/-- Modelled from the spec: the extraction of the fixed 32-byte digest from the final
state (section 4.2, finalize). -/
def Algorithm.extract : Algorithm → List Nat → List Nat
  | .sha256 => sha256Output
  | .sha3_256 => sha3Squeeze

/-! ### HashContext and its lifecycle (sections 3 and 4.2) -/

/-- Modelled from the spec: the lifecycle states of section 4.2. -/
inductive Lifecycle where
  | Uninitialized
  | Ready
  | Finalized
  deriving DecidableEq, Repr

/-- Modelled from the spec: the HashContext of section 3, the typed view of the opaque
buffer: lifecycle flag, discriminator (`none` when no algorithm is active), running
state of the algorithm, buffered bytes of an incomplete block, and total-length
counter. The layout inside the 45 words is not specified and not modelled. -/
structure HashContext where
  lifecycle : Lifecycle
  discriminator : Option Algorithm
  state : List Nat
  buffer : List Nat
  length : Nat
  deriving DecidableEq, Repr

/-- Modelled from the spec: the engine that may operate on a context (section 3): the
one named by the discriminator, and only while the context is `Ready`. -/
def HashContext.active (c : HashContext) : Option Algorithm :=
  match c.lifecycle with
  | .Ready => c.discriminator
  | _ => none

/-- Modelled from the spec: the loop of `update` in section 4.2: "whenever the buffer
reaches the algorithm's block size, the compression/permutation operation is invoked
and the buffer is cleared, repeating for as many full blocks as the input provides;
the remainder stays buffered". `n` is the number of full blocks to take. -/
def absorbBlocks (alg : Algorithm) : Nat → List Nat → List Nat → List Nat × List Nat
  | 0, s, buf => (s, buf)
  | n + 1, s, buf =>
    absorbBlocks alg n (alg.compress s (buf.take alg.blockSize)) (buf.drop alg.blockSize)

/-- Modelled from the spec: the total-length counter of section 4.2, a 64-bit count of
bytes that "accumulates for algorithms that need it (SHA-256)". -/
def Algorithm.count : Algorithm → Nat → Nat → Nat
  | .sha256, len, n => (len + n) % 2 ^ 64
  | .sha3_256, len, _ => len

/-- Modelled from the spec: `crypto_init` as section 4.2 describes `init`; its body is
not in the C sources. A null context is an error; an identifier the dispatcher does
not resolve is an error and the context is left as it was; otherwise the state of the
algorithm is prepared and the context becomes `Ready`, whatever it was before. -/
def crypto_init (ctx : Option HashContext) (algorithm_id : Nat) :
    CryptoResult × Option HashContext :=
  match ctx with
  | none => (.PointerCannotBeNull, none)
  | some c =>
    match resolve algorithm_id with
    | .error e => (e, some c)
    | .ok alg => (.Success, some ⟨.Ready, some alg, alg.initialState, [], 0⟩)

/-- Modelled from the spec: `crypto_update` as section 4.2 describes `update`; its body
is not in the C sources. Null pointers are an error (the data pointer only when the
length is not zero), a context that is not `Ready` is an error, a zero length is a
no-op; otherwise the `length` bytes behind `input` are appended to the buffered bytes
and all full blocks are compressed. -/
def crypto_update (ctx : Option HashContext) (input : Option (List Nat)) (length : Nat) :
    CryptoResult × Option HashContext :=
  match ctx with
  | none => (.PointerCannotBeNull, none)
  | some c =>
    if length > 0 ∧ input = none then (.PointerCannotBeNull, some c)
    else
      match c.active with
      | none => (.UninitializedOrCorruptedContext, some c)
      | some alg =>
        if length = 0 then (.Success, some c)
        else
          let data := c.buffer ++ (input.getD []).take length
          let r := absorbBlocks alg (data.length / alg.blockSize) c.state data
          (.Success, some ⟨.Ready, some alg, r.1, r.2, alg.count c.length length⟩)

/-- Modelled from the spec: `crypto_finalize` as section 4.2 describes `finalize`; its
body is not in the C sources. Null pointers are an error, a context that is not
`Ready` is an error and nothing is written; otherwise the buffered remainder is
padded, the final block or blocks are compressed, the digest is written to the
output and the context becomes `Finalized`. -/
def crypto_finalize (ctx : Option HashContext) (result : Option (List Nat)) :
    CryptoResult × Option HashContext × Option (List Nat) :=
  match ctx, result with
  | none, _ => (.PointerCannotBeNull, none, result)
  | some c, none => (.PointerCannotBeNull, some c, none)
  | some c, some old =>
    match c.active with
    | none => (.UninitializedOrCorruptedContext, some c, some old)
    | some alg =>
      let padded := alg.pad c.buffer c.length
      let r := absorbBlocks alg (padded.length / alg.blockSize) c.state padded
      (.Success, some ⟨.Finalized, some alg, r.1, [], c.length⟩, some (alg.extract r.1))

/-! ### A complete hashing session -/

/-- One `crypto_update` call per chunk, in order, each with the chunk and its length;
the results of the calls are collected. -/
def updateAll (ctx : Option HashContext) :
    List (List Nat) → List CryptoResult × Option HashContext
  | [] => ([], ctx)
  | chunk :: rest =>
    let r := crypto_update ctx (some chunk) chunk.length
    let rs := updateAll r.2 rest
    (r.1 :: rs.1, rs.2)

/-- What a session returns: the result of `crypto_init`, the results of the
`crypto_update` calls, the result of `crypto_finalize`, and the digest buffer after
the last call. -/
structure Session where
  init : CryptoResult
  updates : List CryptoResult
  finalize : CryptoResult
  digest : Option (List Nat)
  deriving DecidableEq, Repr

/-- A session on a caller-allocated context `ctx` and digest buffer `out`:
`crypto_init`, one `crypto_update` per chunk, `crypto_finalize`. -/
def session (ctx : HashContext) (out : List Nat) (algorithm_id : Nat)
    (chunks : List (List Nat)) : Session :=
  let i := crypto_init (some ctx) algorithm_id
  let u := updateAll i.2 chunks
  let f := crypto_finalize u.2 (some out)
  ⟨i.1, u.1, f.1, f.2.2⟩

/-! ### SHA3-256 in one piece

The function the digest of a SHA3-256 session is compared with: the sponge applied to
the whole padded message at once, with no buffering. -/

/-- The padding of a message of `n` bytes to a multiple of the rate: `0x06`, zero bytes,
`0x80`, the first and the last falling on one byte `0x86` when a single byte is
missing. -/
def sha3PadBytes (n : Nat) : List Nat :=
  if n % 136 = 135 then [0x86]
  else 0x06 :: (List.replicate (134 - n % 136) 0 ++ [0x80])

/-- The first `n` blocks of `size` bytes of a byte string. -/
def blocksOf (size : Nat) : Nat → List Nat → List (List Nat)
  | 0, _ => []
  | n + 1, l => l.take size :: blocksOf size n (l.drop size)

/-- SHA3-256 of a message: pad, absorb every 136-byte block into the all-zero state
with Keccak-f[1600] after each, squeeze 32 bytes. -/
def sha3_256 (m : List Nat) : List Nat :=
  let padded := m ++ sha3PadBytes m.length
  sha3Squeeze ((blocksOf 136 (padded.length / 136) padded).foldl sha3Absorb
    (List.replicate 25 0))

/-! ### The layout of section 3 in bytes -/

/-- Modelled from the spec: bytes the SHA-256 engine keeps in the context: eight 32-bit
state words, a 64-byte buffer, an 8-byte length counter. -/
def sha256ContextBytes : Nat := 8 * 4 + 64 + 8

/-- Modelled from the spec: bytes the SHA3-256 engine keeps in the context: 25 lanes of
64 bits and a buffer of one rate (136 bytes). -/
def sha3ContextBytes : Nat := 25 * 8 + 136

/-! ### The example program on the modelled engine -/

/-- The digest buffer after a call that may have written `written` into it: the bytes
written when they fill the buffer, the old content otherwise. -/
def CryptoDigest.store (old : CryptoDigest) (written : Option (List Nat)) : CryptoDigest :=
  match written with
  | none => old
  | some l => if h : l.length = CRYPTO_DIGEST_SIZE then ⟨l, h⟩ else old

/-- The modelled engine behind the interface `main` calls. The typed context is carried
beside the opaque buffer, whose layout the specification leaves open; the 45 words
themselves are handed back as they came. Each result is the value of the enumerator
the engine returns. -/
def engineApi : Api (Option HashContext) where
  crypto_init w ctx id := ((crypto_init w id).1.value, (crypto_init w id).2, ctx)
  crypto_update w ctx data n :=
    ((crypto_update w (some data) n).1.value, (crypto_update w (some data) n).2, ctx)
  crypto_finalize w ctx d :=
    ((crypto_finalize w (some d.bytes)).1.value, (crypto_finalize w (some d.bytes)).2.1, ctx,
      d.store (crypto_finalize w (some d.bytes)).2.2)

/-- The typed view of the context `main` allocates: nothing initialised yet. -/
def freshContext : HashContext := ⟨.Uninitialized, none, [], [], 0⟩

/-! ### The context after a whole message -/

/-- The value of the length counter once the message `m` has been absorbed. -/
def Algorithm.counted : Algorithm → List Nat → Nat
  | .sha256, m => m.length % 2 ^ 64
  | .sha3_256, _ => 0

/-- The `Ready` context in which all of `m` has been absorbed from the initial state:
every full block compressed, the rest buffered. -/
def contextAfter (alg : Algorithm) (m : List Nat) : HashContext :=
  ⟨.Ready, some alg,
    (absorbBlocks alg (m.length / alg.blockSize) alg.initialState m).1,
    (absorbBlocks alg (m.length / alg.blockSize) alg.initialState m).2,
    alg.counted m⟩

/-- The digest `crypto_finalize` extracts from the context `contextAfter alg m`. -/
def digestAfter (alg : Algorithm) (m : List Nat) : List Nat :=
  alg.extract (absorbBlocks alg
    ((alg.pad (contextAfter alg m).buffer (contextAfter alg m).length).length / alg.blockSize)
    (contextAfter alg m).state
    (alg.pad (contextAfter alg m).buffer (contextAfter alg m).length)).1

/-! ## Lemmas -/

theorem leBytes_length (n w : Nat) : (leBytes n w).length = n := by
  induction n generalizing w with
  | zero => rfl
  | succ k ih => simp [leBytes, ih]

theorem flatMap_length_const {α : Type} (f : α → List Nat) (k : Nat) (l : List α)
    (h : ∀ a, (f a).length = k) : (l.flatMap f).length = l.length * k := by
  induction l with
  | nil => simp
  | cons a t ih => simp [List.flatMap_cons, h, ih, Nat.succ_mul, Nat.add_comm]

theorem compareFrom_none (digest : List Nat) (n i : Nat) :
    compareFrom digest n i = none ↔
      ∀ k, i ≤ k → k < i + n → output.getD k 0 = digest.getD k 0 := by
  induction n generalizing i with
  | zero =>
    constructor
    · intro _ k h1 h2; omega
    · intro _; rfl
  | succ n ih =>
    unfold compareFrom
    by_cases h : output.getD i 0 = digest.getD i 0
    · simp only [ne_eq, h, not_true_eq_false, if_false]
      rw [ih]
      constructor
      · intro H k h1 h2
        by_cases hk : k = i
        · subst hk; exact h
        · exact H k (by omega) (by omega)
      · intro H k h1 h2
        exact H k (by omega) (by omega)
    · simp only [ne_eq, h, not_false_eq_true, if_true]
      constructor
      · intro H; cases H
      · intro H; exact absurd (H i (Nat.le_refl _) (by omega)) h

theorem main_unfold {W : Type} (api : Api W) (w : W) :
    main api w =
      if (initCall api w).1 ≠ CryptoResult.Success.value then
        ⟨1, [.init], ["Error while initializing\n"]⟩
      else if (updateCall api w).1 ≠ CryptoResult.Success.value then
        ⟨1, [.init, .update], ["Error while updating\n"]⟩
      else if (finalizeCall api w).1 ≠ CryptoResult.Success.value then
        ⟨1, [.init, .update, .finalize], ["Error while finalizing\n"]⟩
      else
        match compareFrom (finalizeCall api w).2.2.2.bytes 32 0 with
        | some i =>
          ⟨1, [.init, .update, .finalize],
            ["Wrong output at position " ++ toString i ++ ", expected "
              ++ toString (output.getD i 0) ++ " but found "
              ++ toString ((finalizeCall api w).2.2.2.bytes.getD i 0) ++ "! :(\n"]⟩
        | none => ⟨0, [.init, .update, .finalize], ["Correct output! :)\nBye!\n"]⟩ := rfl

theorem blockSize_pos (alg : Algorithm) : 0 < alg.blockSize := by
  cases alg <;> decide

theorem absorbBlocks_add (alg : Algorithm) (n k : Nat) (s l : List Nat) :
    absorbBlocks alg (n + k) s l =
      absorbBlocks alg k (absorbBlocks alg n s l).1 (absorbBlocks alg n s l).2 := by
  induction n generalizing s l with
  | zero => simp [absorbBlocks]
  | succ n ih =>
    rw [Nat.succ_add]
    simp only [absorbBlocks]
    exact ih _ _

theorem absorbBlocks_append (alg : Algorithm) (n : Nat) (s l b : List Nat)
    (h : n * alg.blockSize ≤ l.length) :
    absorbBlocks alg n s (l ++ b) =
      ((absorbBlocks alg n s l).1, (absorbBlocks alg n s l).2 ++ b) := by
  induction n generalizing s l with
  | zero => simp [absorbBlocks]
  | succ n ih =>
    have hb : alg.blockSize ≤ l.length := by
      rw [Nat.succ_mul] at h; omega
    simp only [absorbBlocks]
    rw [List.take_append_of_le_length hb, List.drop_append_of_le_length hb]
    apply ih
    rw [List.length_drop]
    rw [Nat.succ_mul] at h
    omega

theorem absorbBlocks_length (alg : Algorithm) (n : Nat) (s l : List Nat) :
    (absorbBlocks alg n s l).2.length = l.length - n * alg.blockSize := by
  induction n generalizing s l with
  | zero => simp [absorbBlocks]
  | succ n ih =>
    simp only [absorbBlocks]
    rw [ih, List.length_drop, Nat.succ_mul]
    omega

theorem absorbBlocks_fold (alg : Algorithm) (n : Nat) (s l : List Nat) :
    (absorbBlocks alg n s l).1 = (blocksOf alg.blockSize n l).foldl alg.compress s := by
  induction n generalizing s l with
  | zero => simp [absorbBlocks, blocksOf]
  | succ n ih =>
    simp only [absorbBlocks, blocksOf, List.foldl_cons]
    exact ih _ _

theorem contextAfter_buffer_length (alg : Algorithm) (m : List Nat) :
    (contextAfter alg m).buffer.length = m.length % alg.blockSize := by
  unfold contextAfter
  simp only
  rw [absorbBlocks_length]
  have := Nat.div_add_mod m.length alg.blockSize
  rw [Nat.mul_comm] at this
  omega

theorem div_split (a b k : Nat) (hk : 0 < k) : (a + b) / k = a / k + (a % k + b) / k := by
  have h := Nat.div_add_mod a k
  calc (a + b) / k = (k * (a / k) + (a % k + b)) / k := by rw [← Nat.add_assoc, h]
    _ = a / k + (a % k + b) / k := by
      rw [Nat.add_comm, Nat.add_mul_div_left _ _ hk, Nat.add_comm]

/-- Absorbing `a` into the context that holds `m` gives the context that holds `m ++ a`. -/
theorem absorb_contextAfter (alg : Algorithm) (m a : List Nat) :
    absorbBlocks alg (((contextAfter alg m).buffer ++ a).length / alg.blockSize)
        (contextAfter alg m).state ((contextAfter alg m).buffer ++ a) =
      absorbBlocks alg ((m ++ a).length / alg.blockSize) alg.initialState (m ++ a) := by
  have hlen := contextAfter_buffer_length alg m
  rw [List.length_append, hlen, List.length_append,
    div_split m.length a.length alg.blockSize (blockSize_pos alg), absorbBlocks_add,
    absorbBlocks_append alg _ _ m a (Nat.div_mul_le_self _ _)]
  rfl

theorem counted_append (alg : Algorithm) (m a : List Nat) :
    alg.count (alg.counted m) a.length = alg.counted (m ++ a) := by
  cases alg
  · simp only [Algorithm.count, Algorithm.counted, List.length_append]
    omega
  · rfl

theorem crypto_update_contextAfter (alg : Algorithm) (m a : List Nat) :
    crypto_update (some (contextAfter alg m)) (some a) a.length =
      (.Success, some (contextAfter alg (m ++ a))) := by
  unfold crypto_update
  have hact : (contextAfter alg m).active = some alg := rfl
  simp only [hact]
  by_cases ha : a.length = 0
  · have : a = [] := List.length_eq_zero.mp ha
    subst this
    simp
  · have hpos : a.length > 0 := Nat.pos_of_ne_zero ha
    simp only [hpos, true_and, reduceCtorEq, if_false, ha, Option.getD_some, List.take_length]
    rw [absorb_contextAfter]
    have hc : alg.count (contextAfter alg m).length a.length = alg.counted (m ++ a) :=
      counted_append alg m a
    rw [hc]
    rfl

theorem updateAll_contextAfter (alg : Algorithm) (chunks : List (List Nat)) (m : List Nat) :
    updateAll (some (contextAfter alg m)) chunks =
      (List.replicate chunks.length .Success, some (contextAfter alg (m ++ chunks.flatten))) := by
  induction chunks generalizing m with
  | nil => simp [updateAll]
  | cons c cs ih =>
    simp only [updateAll, crypto_update_contextAfter, ih, List.flatten_cons, List.append_assoc,
      List.length_cons, List.replicate_succ]

theorem crypto_init_ok (c : HashContext) (alg : Algorithm) :
    crypto_init (some c) alg.identifier = (.Success, some (contextAfter alg [])) := by
  cases alg <;> rfl

theorem crypto_finalize_contextAfter (alg : Algorithm) (m out : List Nat) :
    crypto_finalize (some (contextAfter alg m)) (some out) =
      (.Success,
        some ⟨.Finalized, some alg,
          (absorbBlocks alg
            ((alg.pad (contextAfter alg m).buffer (contextAfter alg m).length).length
              / alg.blockSize)
            (contextAfter alg m).state
            (alg.pad (contextAfter alg m).buffer (contextAfter alg m).length)).1, [],
          (contextAfter alg m).length⟩,
        some (digestAfter alg m)) := rfl

theorem session_eq (c : HashContext) (out : List Nat) (alg : Algorithm)
    (chunks : List (List Nat)) :
    session c out alg.identifier chunks =
      ⟨.Success, List.replicate chunks.length .Success, .Success,
        some (digestAfter alg chunks.flatten)⟩ := by
  unfold session
  simp only [crypto_init_ok, updateAll_contextAfter, crypto_finalize_contextAfter,
    List.nil_append]

theorem replicate_set_last (k v : Nat) :
    (List.replicate (k + 1) 0).set k v = List.replicate k 0 ++ [v] := by
  induction k with
  | zero => rfl
  | succ k ih =>
    rw [List.replicate_succ, List.set_cons_succ, ih]
    rfl

theorem replicate_getD_zero (k i : Nat) : (List.replicate k 0).getD i 0 = 0 := by
  induction k generalizing i with
  | zero => simp
  | succ k ih =>
    cases i with
    | zero => rfl
    | succ i =>
      rw [List.replicate_succ, List.getD_cons_succ]
      exact ih i

theorem sha3PadBytes_mod (n : Nat) : sha3PadBytes (n % 136) = sha3PadBytes n := by
  unfold sha3PadBytes
  rw [Nat.mod_mod]

theorem sha3Pad_eq (buf : List Nat) (h : buf.length < 136) :
    sha3Pad buf = buf ++ sha3PadBytes buf.length := by
  unfold sha3Pad sha3PadBytes
  have hmod : buf.length % 136 = buf.length := Nat.mod_eq_of_lt h
  rw [hmod]
  by_cases h135 : buf.length = 135
  · simp only [h135, Nat.sub_self, List.replicate_zero, if_true]
    have hg : (buf ++ [6]).getD 135 0 = 6 := by
      rw [List.getD_eq_getElem?_getD, List.getElem?_append_right (by omega), h135]
      rfl
    rw [hg, List.set_append_right _ _ (by omega), h135]
    rfl
  · have hk : 135 - buf.length = (134 - buf.length) + 1 := by omega
    simp only [h135, if_false]
    rw [hk]
    have hg : (buf ++ 6 :: List.replicate (134 - buf.length + 1) 0).getD 135 0 = 0 := by
      rw [List.getD_eq_getElem?_getD, List.getElem?_append_right (by omega), hk,
        List.getElem?_cons_succ, ← List.getD_eq_getElem?_getD]
      exact replicate_getD_zero _ _
    rw [hg, List.set_append_right _ _ (by omega), hk, List.set_cons_succ, replicate_set_last]
    rfl

theorem digestAfter_sha3 (m : List Nat) : digestAfter .sha3_256 m = sha3_256 m := by
  have hbuf : (contextAfter .sha3_256 m).buffer.length < 136 := by
    rw [contextAfter_buffer_length]
    exact Nat.mod_lt _ (by decide)
  have hpad : Algorithm.sha3_256.pad (contextAfter .sha3_256 m).buffer
      (contextAfter .sha3_256 m).length =
      (contextAfter .sha3_256 m).buffer ++ sha3PadBytes m.length := by
    show sha3Pad _ = _
    rw [sha3Pad_eq _ hbuf, contextAfter_buffer_length]
    exact congrArg _ (sha3PadBytes_mod m.length)
  unfold digestAfter
  rw [hpad, absorb_contextAfter, absorbBlocks_fold]
  rfl

theorem extract_length (alg : Algorithm) (s : List Nat) : (alg.extract s).length = 32 := by
  cases alg
  · show (sha256Output s).length = 32
    unfold sha256Output
    rw [flatMap_length_const _ 4 _ (fun i => by simp [beBytes, leBytes_length])]
    rfl
  · show (sha3Squeeze s).length = 32
    unfold sha3Squeeze
    rw [flatMap_length_const _ 8 _ (fun i => leBytes_length _ _)]
    rfl

theorem digestAfter_length (alg : Algorithm) (m : List Nat) : (digestAfter alg m).length = 32 :=
  extract_length alg _

theorem identifier_cases (id : Nat) (h : id = SHA256_ALG_ID ∨ id = SHA3_256_ALG_ID) :
    ∃ alg : Algorithm, alg.identifier = id := by
  rcases h with h | h
  · exact ⟨.sha256, h.symm⟩
  · exact ⟨.sha3_256, h.symm⟩

set_option maxRecDepth 100000 in
theorem sha3_256_hello : sha3_256 input = output := by decide

set_option maxRecDepth 100000 in
/-- The SHA-256 engine on known answers: the empty message (no update call), the three
bytes 61 62 63, and the 100 bytes 00 01 .. 63 fed in pieces of 30, 0, 64 and 6 bytes,
which fill more than one block. -/
theorem sha256_known_answers :
    (session freshContext [] SHA256_ALG_ID []).digest.map hexEncode = some
      "e3b0c44298fc1c149afbf4c8996fb92427ae41e4649b934ca495991b7852b855".toList ∧
    (session freshContext [] SHA256_ALG_ID [[0x61, 0x62, 0x63]]).digest.map hexEncode = some
      "ba7816bf8f01cfea414140de5dae2223b00361a396177a9cb410ff61f20015ad".toList ∧
    (session freshContext [] SHA256_ALG_ID
        [List.range 30, [], (List.range 94).drop 30, (List.range 100).drop 94]).digest.map
      hexEncode = some
      "bce0aff19cf5aa6a7469a30d61d04e4376e4bbf6381052ee9e7f33925c954d52".toList := by
  decide

set_option maxRecDepth 100000 in
/-- The SHA3-256 engine on known answers: the empty message (no update call), and the
200 bytes a3 .. a3, more than one rate, fed in pieces of 150 and 50 bytes. -/
theorem sha3_256_known_answers :
    (session freshContext [] SHA3_256_ALG_ID []).digest.map hexEncode = some
      "a7ffc6f8bf1ed76651c14756a061d662f580ff4de43b49fa82d80a4b80f8434a".toList ∧
    (session freshContext [] SHA3_256_ALG_ID
        [List.replicate 150 0xa3, List.replicate 50 0xa3]).digest.map hexEncode = some
      "79f38adec5c20307a98ef76e8324afbfd46cfd81b22e3973c65fa1bd9de31787".toList := by
  decide

/-! ## The claims -/

/-- C1: on any caller-allocated context and digest buffer, and for every byte sequence
`m`, the calls crypto_init(ctx, SHA3_256_ALG_ID), crypto_update(ctx, m, |m|) and
crypto_finalize(ctx, &digest) each return Success, and the digest buffer then holds
SHA3-256 of `m` (the sponge over Keccak-f[1600] with rate 136, padding 0x06 .. 0x80,
32 bytes squeezed), which is 32 bytes long; for the input of the example,
68 65 6c 6c 6f, that digest is the array the example expects, 33 38 be 69 .. 23 98 f3 92. -/
theorem sha3_256_session (ctx : HashContext) (out m : List Nat) :
    (crypto_init (some ctx) SHA3_256_ALG_ID).1 = .Success ∧
    (crypto_update (crypto_init (some ctx) SHA3_256_ALG_ID).2 (some m) m.length).1
      = .Success ∧
    (crypto_finalize
      (crypto_update (crypto_init (some ctx) SHA3_256_ALG_ID).2 (some m) m.length).2
      (some out)).1 = .Success ∧
    (crypto_finalize
      (crypto_update (crypto_init (some ctx) SHA3_256_ALG_ID).2 (some m) m.length).2
      (some out)).2.2 = some (sha3_256 m) ∧
    (sha3_256 m).length = 32 ∧
    sha3_256 input = output ∧
    output =
      [0x33, 0x38, 0xbe, 0x69, 0x4f, 0x50, 0xc5, 0xf3, 0x38, 0x81, 0x49, 0x86, 0xcd, 0xf0,
       0x68, 0x64, 0x53, 0xa8, 0x88, 0xb8, 0x4f, 0x42, 0x4d, 0x79, 0x2a, 0xf4, 0xb9, 0x20,
       0x23, 0x98, 0xf3, 0x92] := by
  have hi : crypto_init (some ctx) SHA3_256_ALG_ID
      = (.Success, some (contextAfter .sha3_256 [])) := crypto_init_ok ctx .sha3_256
  have hu := crypto_update_contextAfter .sha3_256 [] m
  have hf := crypto_finalize_contextAfter .sha3_256 ([] ++ m) out
  rw [List.nil_append] at hu hf
  rw [digestAfter_sha3] at hf
  have hl : (sha3_256 m).length = 32 := by
    rw [← digestAfter_sha3]; exact digestAfter_length _ _
  rw [hi, hu, hf]
  exact ⟨rfl, rfl, rfl, rfl, hl, sha3_256_hello, rfl⟩

/-- C2: for every context and every identifier (of 32 bits or any other size) other than
0 (SHA256_ALG_ID) and 1 (SHA3_256_ALG_ID), crypto_init returns
BadOrUnsupportedAlgorithm, which is not Success; the dispatcher resolves the
identifier to no algorithm; and the context is left exactly as it was, so its
lifecycle state (Uninitialized for a fresh context) and the absence of an active
algorithm are unchanged. -/
theorem crypto_init_unknown_id (c : HashContext) (id : Nat)
    (h0 : id ≠ SHA256_ALG_ID) (h1 : id ≠ SHA3_256_ALG_ID) :
    crypto_init (some c) id = (.BadOrUnsupportedAlgorithm, some c) ∧
    (crypto_init (some c) id).1 ≠ .Success ∧
    resolve id = .error .BadOrUnsupportedAlgorithm ∧
    (∀ alg : Algorithm, resolve id ≠ .ok alg) ∧
    (crypto_init (some c) id).2.map HashContext.lifecycle = some c.lifecycle ∧
    (crypto_init (some c) id).2.bind HashContext.active = c.active := by
  have hr : resolve id = .error .BadOrUnsupportedAlgorithm := by
    unfold resolve
    rw [if_neg h0, if_neg h1]
  have hc : crypto_init (some c) id = (.BadOrUnsupportedAlgorithm, some c) := by
    unfold crypto_init
    simp only [hr]
  refine ⟨hc, ?_, hr, ?_, ?_, ?_⟩
  · rw [hc]; intro h; cases h
  · intro alg; rw [hr]; intro h; cases h
  · rw [hc]; rfl
  · rw [hc]; rfl

/-- C2 at a concrete input: a fresh (Uninitialized) context and the identifier 2. -/
theorem crypto_init_unknown_id_witness :
    (2 : Nat) ≠ SHA256_ALG_ID ∧ (2 : Nat) ≠ SHA3_256_ALG_ID ∧
    crypto_init (some ⟨.Uninitialized, none, [], [], 0⟩) 2
      = (.BadOrUnsupportedAlgorithm, some ⟨.Uninitialized, none, [], [], 0⟩) ∧
    (crypto_init (some ⟨.Uninitialized, none, [], [], 0⟩) 2).2.map HashContext.lifecycle
      = some .Uninitialized :=
  ⟨by decide, by decide,
    (crypto_init_unknown_id ⟨.Uninitialized, none, [], [], 0⟩ 2 (by decide) (by decide)).1,
    (crypto_init_unknown_id ⟨.Uninitialized, none, [], [], 0⟩ 2
      (by decide) (by decide)).2.2.2.2.1⟩

/-- C3: for both algorithm identifiers, every byte sequence `m` and every list of
chunks (of any lengths, one byte and zero bytes included) whose concatenation is `m`,
the session crypto_init, one crypto_update per chunk, crypto_finalize returns Success
from every call and leaves the same 32-byte digest as the session with the single
update crypto_update(ctx, m, |m|), which also returns Success from every call. -/
theorem streaming_invariant (ctx : HashContext) (out : List Nat) (id : Nat)
    (m : List Nat) (chunks : List (List Nat))
    (hid : id = SHA256_ALG_ID ∨ id = SHA3_256_ALG_ID) (hm : chunks.flatten = m) :
    (session ctx out id chunks).digest = (session ctx out id [m]).digest ∧
    (∃ d : List Nat, (session ctx out id chunks).digest = some d ∧ d.length = 32) ∧
    (session ctx out id chunks).init = .Success ∧
    (session ctx out id chunks).updates = List.replicate chunks.length .Success ∧
    (session ctx out id chunks).finalize = .Success ∧
    (session ctx out id [m]).init = .Success ∧
    (session ctx out id [m]).updates = [.Success] ∧
    (session ctx out id [m]).finalize = .Success := by
  obtain ⟨alg, rfl⟩ := identifier_cases id hid
  subst hm
  rw [session_eq, session_eq]
  simp only [List.flatten_cons, List.flatten_nil, List.append_nil, List.length_cons,
    List.length_nil, List.replicate_succ, List.replicate_zero, true_and, and_true]
  exact ⟨_, rfl, digestAfter_length _ _⟩

/-- C3 at a concrete input: SHA-256, the message 1 2 3 split into the chunks 1 2, the
empty chunk, and 3. -/
theorem streaming_invariant_witness :
    (SHA256_ALG_ID = SHA256_ALG_ID ∨ SHA256_ALG_ID = SHA3_256_ALG_ID) ∧
    [[1, 2], [], [3]].flatten = [1, 2, 3] ∧
    (session ⟨.Uninitialized, none, [], [], 0⟩ [] SHA256_ALG_ID [[1, 2], [], [3]]).digest
      = (session ⟨.Uninitialized, none, [], [], 0⟩ [] SHA256_ALG_ID [[1, 2, 3]]).digest :=
  ⟨Or.inl rfl, rfl,
    (streaming_invariant ⟨.Uninitialized, none, [], [], 0⟩ [] SHA256_ALG_ID [1, 2, 3]
      [[1, 2], [], [3]] (Or.inl rfl) rfl).1⟩

/-- C4: the enumerators of `CryptoResult` have the values Success = 0, Failure = 1,
PointerCannotBeNull = 2, BadOrUnsupportedAlgorithm = 3, UninitializedOrCorruptedContext = 4;
there are exactly five result values (every value of the type is one of the five listed
enumerators, listed once) and their integer values are pairwise distinct. -/
theorem cryptoResult_values :
    CryptoResult.Success.value = 0 ∧ CryptoResult.Failure.value = 1 ∧
    CryptoResult.PointerCannotBeNull.value = 2 ∧
    CryptoResult.BadOrUnsupportedAlgorithm.value = 3 ∧
    CryptoResult.UninitializedOrCorruptedContext.value = 4 ∧
    CryptoResult.enumerators.length = 5 ∧ CryptoResult.enumerators.Nodup ∧
    (∀ r : CryptoResult, r ∈ CryptoResult.enumerators) ∧
    (∀ r s : CryptoResult, r.value = s.value ↔ r = s) := by
  refine ⟨by decide, by decide, by decide, by decide, by decide, by decide, by decide, ?_, ?_⟩
  · intro r; cases r <;> decide
  · intro r s; cases r <;> cases s <;> decide

/-- C5: the algorithm identifiers are SHA256_ALG_ID = 0 and SHA3_256_ALG_ID = 1, they are
distinct, and the identifiers the header defines are exactly these two values. -/
theorem algorithm_ids_closed :
    SHA256_ALG_ID = 0 ∧ SHA3_256_ALG_ID = 1 ∧ SHA256_ALG_ID ≠ SHA3_256_ALG_ID ∧
    algorithmIds.length = 2 ∧ ∀ id : Nat, id ∈ algorithmIds ↔ (id = 0 ∨ id = 1) := by
  refine ⟨rfl, rfl, by decide, rfl, ?_⟩
  intro id
  simp [algorithmIds, SHA256_ALG_ID, SHA3_256_ALG_ID]

/-- C6: `CryptoContext` is an array of CRYPTO_CONTEXT_STATE_SIZE = 45 words of 64 bits
(8 bytes), its size is CRYPTO_CONTEXT_STATE_SIZE * 8 = 360 bytes, and every context
value has exactly 45 words and an object representation of exactly 360 bytes. -/
theorem cryptoContext_capacity :
    CRYPTO_CONTEXT_STATE_SIZE = 45 ∧ UINT64_BYTES * 8 = 64 ∧
    CryptoContext.sizeInBytes = CRYPTO_CONTEXT_STATE_SIZE * 8 ∧
    CryptoContext.sizeInBytes = 360 ∧
    ∀ c : CryptoContext, c.state.length = 45 ∧ c.bytes.length = 360 := by
  refine ⟨rfl, rfl, rfl, rfl, fun c => ⟨c.size_eq, ?_⟩⟩
  unfold CryptoContext.bytes
  rw [flatMap_length_const _ UINT64_BYTES _ (fun w => leBytes_length _ _), c.size_eq]
  rfl

/-- C7: the digest type is CRYPTO_DIGEST_SIZE = 32 bytes of 8 bits (256 bits), every
digest value has exactly 32 bytes, and for both algorithms and every input, however it
is split, a session leaves a digest of exactly 32 bytes; the expected array of the
example has the same length 32, and the loop of the example compares exactly the
indices 0 to 31: it finds no difference exactly when the two arrays agree there. -/
theorem digest_size (alg : Algorithm) (ctx : HashContext) (out : List Nat)
    (chunks : List (List Nat)) (digest : List Nat) :
    CRYPTO_DIGEST_SIZE = 32 ∧ UINT8_BITS = 8 ∧ CryptoDigest.sizeInBits = 256 ∧
    (∀ d : CryptoDigest, d.bytes.length = 32) ∧
    (∃ d : List Nat, (session ctx out alg.identifier chunks).digest = some d ∧
      d.length = CRYPTO_DIGEST_SIZE) ∧
    output.length = CRYPTO_DIGEST_SIZE ∧
    (compareFrom digest CRYPTO_DIGEST_SIZE 0 = none ↔
      ∀ k, k < 32 → output.getD k 0 = digest.getD k 0) := by
  refine ⟨rfl, rfl, rfl, fun d => d.size_eq, ?_, rfl, ?_⟩
  · rw [session_eq]
    exact ⟨_, rfl, digestAfter_length _ _⟩
  · rw [compareFrom_none]
    constructor
    · intro H k hk; exact H k (Nat.zero_le _) (by simpa [CRYPTO_DIGEST_SIZE] using hk)
    · intro H k _ hk; exact H k (by simpa [CRYPTO_DIGEST_SIZE] using hk)

/-- C8 as stated fails: the lowercase hexadecimal encoding of the expected array of the
example does not begin with 338be6944f50c5f3388149, so the three parts of the claim
(32 bytes, that beginning, last four bytes 23 98 f3 92) do not hold together. -/
theorem regression_vector_hex_mismatch :
    ¬ (output.length = 32 ∧
       "338be6944f50c5f3388149".toList.isPrefixOf (hexEncode output) = true ∧
       output.drop 28 = [0x23, 0x98, 0xf3, 0x92]) := by
  decide

/-- C8 amended: the expected array of the example (for the input 68 65 6c 6c 6f) is 32
bytes long, its lowercase hexadecimal encoding begins with 3338be694f50c5f3388149, and
its last four bytes are 23 98 f3 92. -/
theorem regression_vector_shape :
    input = [0x68, 0x65, 0x6c, 0x6c, 0x6f] ∧ output.length = 32 ∧
    "3338be694f50c5f3388149".toList.isPrefixOf (hexEncode output) = true ∧
    output.drop 28 = [0x23, 0x98, 0xf3, 0x92] := by
  decide

/-- C9: the 360 bytes of `CryptoContext` hold the state of either algorithm as the
specification lays it out: SHA-256 needs 8*4 + 64 + 8 = 104 bytes, SHA3-256 needs
25*8 + 136 = 336 bytes, the larger of the two is 336, and 360 - 336 = 24 bytes remain,
enough for a discriminator and a lifecycle flag of one 64-bit word each. The figures
are those of the engines: 8 and 25 state words, blocks of 64 and 136 bytes. -/
theorem context_capacity_suffices :
    sha256ContextBytes = Algorithm.sha256.initialState.length * 4
      + Algorithm.sha256.blockSize + 8 ∧
    sha256ContextBytes = 104 ∧
    sha3ContextBytes = Algorithm.sha3_256.initialState.length * 8
      + Algorithm.sha3_256.blockSize ∧
    sha3ContextBytes = 336 ∧
    max sha256ContextBytes sha3ContextBytes = 336 ∧
    CryptoContext.sizeInBytes - max sha256ContextBytes sha3ContextBytes = 24 ∧
    max sha256ContextBytes sha3ContextBytes + 2 * UINT64_BYTES ≤ CryptoContext.sizeInBytes := by
  decide

/-- C10: whatever the three API functions do (whatever integers they return and whatever
they write), `main` returns 0 exactly when `crypto_init`, `crypto_update` (called on
what `crypto_init` left) and `crypto_finalize` (called on what `crypto_update` left)
all return Success and the digest equals the expected array at every index 0..31;
otherwise it returns 1; and it makes no call after the first one that does not return
Success. -/
theorem main_exit_code {W : Type} (api : Api W) (w : W) :
    ((main api w).exit = 0 ↔
      (initCall api w).1 = CryptoResult.Success.value ∧
      (updateCall api w).1 = CryptoResult.Success.value ∧
      (finalizeCall api w).1 = CryptoResult.Success.value ∧
      ∀ k, k < 32 → output.getD k 0 = (finalizeCall api w).2.2.2.bytes.getD k 0) ∧
    ((main api w).exit = 0 ∨ (main api w).exit = 1) ∧
    (main api w).calls =
      (if (initCall api w).1 ≠ CryptoResult.Success.value then [.init]
       else if (updateCall api w).1 ≠ CryptoResult.Success.value then [.init, .update]
       else [.init, .update, .finalize]) := by
  rw [main_unfold]
  by_cases h1 : (initCall api w).1 = CryptoResult.Success.value
  · by_cases h2 : (updateCall api w).1 = CryptoResult.Success.value
    · by_cases h3 : (finalizeCall api w).1 = CryptoResult.Success.value
      · simp only [ne_eq, h1, h2, h3, not_true_eq_false, if_false, true_and]
        cases hc : compareFrom (finalizeCall api w).2.2.2.bytes 32 0 with
        | none =>
          have H := (compareFrom_none _ 32 0).1 hc
          exact ⟨⟨fun _ k hk => H k (Nat.zero_le _) (by omega), fun _ => rfl⟩, Or.inl rfl, rfl⟩
        | some i =>
          refine ⟨⟨fun h => ?_, fun H => ?_⟩, Or.inr rfl, rfl⟩
          · simp at h
          · have : compareFrom (finalizeCall api w).2.2.2.bytes 32 0 = none :=
              (compareFrom_none _ 32 0).2 (fun k _ hk => H k (by omega))
            rw [this] at hc
            cases hc
      · simp [h1, h2, h3]
    · simp [h1, h2]
  · simp [h1]

set_option maxRecDepth 100000 in
/-- C10 at a concrete input: the example program on the modelled engine. `main` returns
0 there, so each of the three calls returned Success and the digest agrees with the
expected array at the indices 0 to 31. -/
theorem main_exit_code_witness :
    (main engineApi (some freshContext)).exit = 0 ∧
    (initCall engineApi (some freshContext)).1 = CryptoResult.Success.value ∧
    (updateCall engineApi (some freshContext)).1 = CryptoResult.Success.value ∧
    (finalizeCall engineApi (some freshContext)).1 = CryptoResult.Success.value ∧
    ∀ k, k < 32 → output.getD k 0 =
      (finalizeCall engineApi (some freshContext)).2.2.2.bytes.getD k 0 :=
  ⟨by decide, (main_exit_code engineApi (some freshContext)).1.1 (by decide)⟩

end CryptoApi
